import Mathlib

/-!
Shallow embedding of the openprm spatial-representation core
(src/utils/spatialrep.h) and of the two planners that consume it
(src/planners/classicprm.h, src/planners/sblplanner.h).

Conventions of the embedding:
* the OpenRAVE scalar type dReal is modelled by the rationals;
* a configuration (std::vector of dReal) is a list of rationals;
* the boost adjacency_list p_graph (listS out-edges, vecS vertices,
  undirectedS, edge_weight property) is modelled by its number of
  vertices together with the list of inserted weighted edges: vecS
  vertex descriptors are exactly 0, 1, 2, ... and add_vertex returns
  the previous vertex count;
* boost dijkstra_shortest_paths and astar_search are modelled by a
  textbook best-first loop over an explicit state (tentative distance,
  predecessor and visited arrays); both BGL routines initialise every
  predecessor to the vertex itself and relax edges exactly when they
  strictly improve the tentative distance, which is what the model
  does.  The C++ passes a distance map of C ints, so distances are
  truncated; none of the facts proved below depend on distance values,
  only on which vertices are reached and on the fixed-point structure
  of the predecessor map, which truncation does not affect;
* DistMetric::Eval lives in utils/oputils.h, which is not part of the
  sources; every graph operation therefore takes the metric as an
  explicit function parameter, and concrete instances use the L1
  metric distL1 below;
* unbounded C++ loops (while(1) in SpatialTree::Extend, the do/while
  predecessor walks, the while(!b_connected) loop of
  SBLPlanner::buildTrees) are given an explicit fuel argument; every
  theorem proved about them holds for all sufficiently large fuel as
  stated by its hypotheses.
-/

namespace openprm

/-- Model of the OpenRAVE scalar type dReal. -/
abbrev dReal := ℚ

/-- Model of a configuration vector (std::vector of dReal). -/
abbrev config := List dReal

/-- Spatial graph node, struct s_node of spatialrep.h: a configuration
together with its boost vertex descriptor. -/
structure s_node where
  nconfig : config
  vertex : ℕ
deriving DecidableEq, Repr

/-- Model of the default-constructed s_node (nconfig is an empty vector;
the C++ leaves vertex indeterminate, the model uses 0 and no proved fact
reads the vertex field of a default node). -/
instance : Inhabited s_node := ⟨⟨[], 0⟩⟩

/-- Spatial tree node, struct t_node of spatialrep.h:
t_node(int parent, const vector of dReal q). -/
structure t_node where
  parent : ℤ
  q : config
deriving DecidableEq, Repr

/-- Model of a default t_node, used only as the default of list lookups. -/
instance : Inhabited t_node := ⟨⟨0, []⟩⟩

/-- Concrete L1 distance metric on configurations, standing in for
DistMetric::Eval (defined in utils/oputils.h, outside the given sources)
in concrete instantiations; general theorems quantify over the metric. -/
def distL1 (a b : config) : dReal :=
  (List.zipWith (fun x y => |x - y|) a b).foldl (· + ·) 0

/-- State of a SpatialGraph (class SpatialGraph of spatialrep.h):
max_nodes and neigh_thresh are the constructor parameters, node_list is
the stored node vector, and the boost graph p_graph together with its
weight map w_map is modelled by its vertex count num_boost_verts and the
list of inserted undirected weighted edges. -/
structure SpatialGraph where
  max_nodes : ℕ
  neigh_thresh : dReal
  node_list : List s_node
  num_boost_verts : ℕ
  edges : List (ℕ × ℕ × dReal)
deriving DecidableEq, Repr

/-- Default constructor SpatialGraph(): max_nodes = DMAXNODES = 100,
neigh_thresh = DNTHRESH = 5, empty node list, empty boost graph. -/
def SpatialGraph.mkDefault : SpatialGraph :=
  ⟨100, 5, [], 0, []⟩

/-- Constructor SpatialGraph(int m_nodes, dReal n_thresh): note that
this constructor builds the boost graph as s_graph g(max_nodes), i.e.
the graph starts with max_nodes vertices already present, so the first
add_vertex returns max_nodes. -/
def SpatialGraph.mkParam (m_nodes : ℕ) (n_thresh : dReal) : SpatialGraph :=
  ⟨m_nodes, n_thresh, [], m_nodes, []⟩

/-- SpatialGraph::addNode: boost add_vertex returns the previous vertex
count of p_graph; a new s_node is appended to node_list and the vertex
descriptor is returned. -/
def SpatialGraph.addNode (g : SpatialGraph) (conf : config) : SpatialGraph × ℕ :=
  let v := g.num_boost_verts
  ({ g with num_boost_verts := v + 1,
            node_list := g.node_list ++ [⟨conf, v⟩] }, v)

/-- Iterated addNode, used by the planners to insert a list of sampled
configurations one by one. -/
def addNodes (g : SpatialGraph) (confs : List config) : SpatialGraph :=
  confs.foldl (fun g c => (g.addNode c).1) g

/-- SpatialGraph::getNode: linear scan of node_list keeping the last
node whose vertex matches (the C++ loop does not break), returning a
default-constructed node when none matches. -/
def SpatialGraph.getNode (g : SpatialGraph) (v : ℕ) : s_node :=
  g.node_list.foldl (fun acc it => if it.vertex = v then it else acc) default

/-- SpatialGraph::getNodes: the stored node count. -/
def SpatialGraph.getNodes (g : SpatialGraph) : ℕ :=
  g.node_list.length

/-- Neighbours of vertex v in the boost graph (boost adjacent_vertices
for an undirected graph: the opposite endpoint of every incident edge). -/
def SpatialGraph.adjList (g : SpatialGraph) (v : ℕ) : List ℕ :=
  g.edges.foldr
    (fun e acc =>
      if e.1 = v then e.2.1 :: acc
      else if e.2.1 = v then e.1 :: acc
      else acc) []

/-- SpatialGraph::edgeExists(u, v): true when u = v, otherwise a scan of
the adjacency of v for u. -/
def SpatialGraph.edgeExists (g : SpatialGraph) (u v : ℕ) : Bool :=
  u == v || (g.adjList v).contains u

/-- SpatialGraph::addEdge(u, v): rejected when the edge exists or u = v,
rejected when the metric distance of the stored configurations exceeds
neigh_thresh, otherwise the edge is inserted with the distance as its
weight (boost add_edge on a listS/undirectedS graph always inserts, and
with vecS vertex storage it grows the vertex set when an endpoint is out
of range).  The metric dEval stands for DistMetric::Eval. -/
def SpatialGraph.addEdge (dEval : config → config → dReal)
    (g : SpatialGraph) (u v : ℕ) : SpatialGraph × Bool :=
  if g.edgeExists u v || u == v then (g, false)
  else
    let nu := g.getNode u
    let nv := g.getNode v
    let dist := dEval nu.nconfig nv.nconfig
    if g.neigh_thresh < dist then (g, false)
    else
      ({ g with num_boost_verts := max g.num_boost_verts (max u v + 1),
                edges := g.edges ++ [(u, v, dist)] }, true)

/-- SpatialGraph::findNN(n, s_neighbors): returns 0 leaving the output
list untouched when at most one node is stored or when n exceeds the
stored node count (the validity test the C++ applies to the handle);
otherwise clears the output list and fills it with every stored node
that is not already adjacent to n (edgeExists, which also excludes n
itself) and whose distance to getNode(n) is within neigh_thresh. -/
def SpatialGraph.findNN (dEval : config → config → dReal)
    (g : SpatialGraph) (n : ℕ) (s_neighbors : List s_node) : ℕ × List s_node :=
  if g.node_list.length ≤ 1 then (0, s_neighbors)
  else if g.node_list.length < n then (0, s_neighbors)
  else
    let nn := g.getNode n
    let res := g.node_list.filter
      (fun it => !(g.edgeExists n it.vertex) &&
                 decide (dEval nn.nconfig it.nconfig ≤ g.neigh_thresh))
    (res.length, res)

/-- Weighted adjacency of vertex v: the opposite endpoint and weight of
every edge incident to v, as enumerated by boost out_edges on the
undirected graph. -/
def SpatialGraph.adjW (g : SpatialGraph) (v : ℕ) : List (ℕ × dReal) :=
  g.edges.foldr
    (fun e acc =>
      if e.1 = v then (e.2.1, e.2.2) :: acc
      else if e.2.1 = v then (e.1, e.2.2) :: acc
      else acc) []

/-- State of a best-first search over p_graph: tentative distances (none
for unreached, matching the BGL infinity initialisation), the
predecessor map (initialised by BGL to the identity) and the visited
(BGL colour) flags, each indexed by vertex. -/
structure SearchState where
  dist : List (Option dReal)
  pred : List ℕ
  visited : List Bool
deriving Repr

/-- Initial search state over n vertices with source s: distance 0 at
the source, every predecessor equal to its own vertex, nothing visited. -/
def initSearch (n s : ℕ) : SearchState :=
  ⟨(List.replicate n (none : Option dReal)).set s (some 0),
   List.range n, List.replicate n false⟩

/-- Unvisited reached vertices paired with their priority dist + h. -/
def frontierList (h : ℕ → dReal) (st : SearchState) : List (ℕ × dReal) :=
  (List.range st.dist.length).filterMap
    (fun v =>
      if st.visited.getD v false then none
      else
        match st.dist.getD v none with
        | none => none
        | some d => some (v, d + h v))

/-- Choice of a minimum-priority candidate from a list. -/
def bestCand : Option (ℕ × dReal) → List (ℕ × dReal) → Option (ℕ × dReal)
  | acc, [] => acc
  | none, c :: cs => bestCand (some c) cs
  | some b, c :: cs => bestCand (some (if c.2 < b.2 then c else b)) cs

/-- Extraction of the unvisited reached vertex of minimum priority
(the priority-queue pop of the BGL search). -/
def pickMin (h : ℕ → dReal) (st : SearchState) : Option ℕ :=
  (bestCand none (frontierList h st)).map (·.1)

/-- Marking a vertex visited (BGL colouring it black on examination). -/
def markVisited (u : ℕ) (st : SearchState) : SearchState :=
  { st with visited := st.visited.set u true }

/-- Relaxation of one edge out of u: the tentative distance of the
opposite endpoint is updated, and its predecessor set to u, exactly when
the path through u strictly improves it. -/
def relaxOne (u : ℕ) (st : SearchState) (e : ℕ × dReal) : SearchState :=
  match st.dist.getD u none with
  | none => st
  | some du =>
    match st.dist.getD e.1 none with
    | none =>
      { st with dist := st.dist.set e.1 (some (du + e.2)),
                pred := st.pred.set e.1 u }
    | some dw =>
      if du + e.2 < dw then
        { st with dist := st.dist.set e.1 (some (du + e.2)),
                  pred := st.pred.set e.1 u }
      else st

/-- Relaxation of every edge out of u. -/
def relaxAll (g : SpatialGraph) (u : ℕ) (st : SearchState) : SearchState :=
  (g.adjW u).foldl (relaxOne u) st

/-- Main loop of boost dijkstra_shortest_paths: repeatedly examine the
reached unvisited vertex of least tentative distance and relax its
edges, until none is left.  The fuel bounds the iteration count; the
vertex count plus one is enough since every iteration visits a new
vertex. -/
def dijkstraLoop (g : SpatialGraph) : ℕ → SearchState → SearchState
  | 0, st => st
  | fuel + 1, st =>
    match pickMin (fun _ => 0) st with
    | none => st
    | some u => dijkstraLoop g fuel (relaxAll g u (markVisited u st))

/-- Predecessor map produced by dijkstra_shortest_paths from source s,
over vectors of size num_vertices(p_graph). -/
def dijkstraPred (g : SpatialGraph) (s : ℕ) : List ℕ :=
  (dijkstraLoop g (g.num_boost_verts + 1)
    (initSearch g.num_boost_verts s)).pred

/-- The do/while predecessor walk of SpatialGraph::findPathDK: push the
node of the current vertex, step to its predecessor, and stop as soon as
the new vertex is a fixed point of the predecessor map; returns the
final vertex and the accumulated path.  Fuel bounds the walk (the C++
walk terminates because a Dijkstra predecessor map has no cycles). -/
def predWalk (g : SpatialGraph) (p : List ℕ) :
    ℕ → ℕ → List s_node → ℕ × List s_node
  | 0, child, acc => (child, acc)
  | fuel + 1, child, acc =>
    let acc' := g.getNode child :: acc
    let child' := p.getD child child
    if child' ≠ p.getD child' child' then predWalk g p fuel child' acc'
    else (child', acc')

/-- SpatialGraph::findPathDK(f, t, s_path): run Dijkstra from f.vertex,
walk the predecessor map back from t.vertex pushing nodes onto the front
of s_path, and then return false if the walk stopped at f.vertex,
otherwise prepend f itself and return true.  This is the verbatim
control flow of the C++ (lines 218-245 of spatialrep.h). -/
def SpatialGraph.findPathDK (g : SpatialGraph) (f t : s_node)
    (s_path : List s_node) : Bool × List s_node :=
  let p := dijkstraPred g f.vertex
  let r := predWalk g p (g.num_boost_verts + 1) t.vertex s_path
  if r.1 = f.vertex then (false, r.2)
  else (true, f :: r.2)

/-- Heuristic of SpatialGraph::findPathAS: distance_heuristic indexes
the node_map array (node_list copied in order) by the vertex descriptor
of the goal and of the queried vertex; an out-of-range index (possible
under the parameterised constructor, where descriptors exceed the node
count) is modelled by the default node. -/
def astarHeuristic (dEval : config → config → dReal)
    (g : SpatialGraph) (goal : ℕ) (u : ℕ) : dReal :=
  dEval (g.node_list.getD goal default).nconfig
        (g.node_list.getD u default).nconfig

/-- Main loop of boost astar_search with the astar_goal_visitor: examine
the reached unvisited vertex of least distance-plus-heuristic; when it
is the goal, throw found_goal, modelled by returning the predecessor map
at that instant; otherwise relax its edges and continue; when no
candidate is left the search completes without finding the goal. -/
def astarLoop (g : SpatialGraph) (h : ℕ → dReal) (goal : ℕ) :
    ℕ → SearchState → Option (List ℕ)
  | 0, _ => none
  | fuel + 1, st =>
    match pickMin h st with
    | none => none
    | some u =>
      if u = goal then some st.pred
      else astarLoop g h goal fuel (relaxAll g u (markVisited u st))

/-- The catch-block walk of findPathAS: for (v = goal;; v = p[v]) push
the node of v and break once p[v] = v. -/
def asWalk (g : SpatialGraph) (p : List ℕ) :
    ℕ → ℕ → List s_node → List s_node
  | 0, _, acc => acc
  | fuel + 1, v, acc =>
    let acc' := g.getNode v :: acc
    if p.getD v v = v then acc'
    else asWalk g p fuel (p.getD v v) acc'

/-- SpatialGraph::findPathAS(f, t, s_path): run the A* search from
f.vertex with the goal visitor for t.vertex; when found_goal is thrown
the path is reconstructed onto the front of s_path through the
predecessor walk; in every case the function returns true. -/
def SpatialGraph.findPathAS (dEval : config → config → dReal)
    (g : SpatialGraph) (f t : s_node) (s_path : List s_node) :
    Bool × List s_node :=
  match astarLoop g (astarHeuristic dEval g t.vertex) t.vertex
      (g.num_boost_verts + 1) (initSearch g.num_boost_verts f.vertex) with
  | some p => (true, asWalk g p (g.num_boost_verts + 1) t.vertex s_path)
  | none => (true, s_path)

/-- Extension result of SpatialTree::Extend (enum ExtendType of
spatialrep.h, with the spelling of the source). -/
inductive ExtendType
  | ET_Failed
  | ET_Sucess
  | ET_Connected
deriving DecidableEq, Repr

/-- The slice of PlannerBase::PlannerParameters that SpatialTree::Extend
reads, together with the external collision oracle
CollisionFunctions::CheckCollision.  diffstatefn models the in-place
update of _vNewConfig by params->_diffstatefn(_vNewConfig, pnode->q);
constraintfn models the optional params->_constraintfn (true = the
candidate satisfies the constraints); checkCollision models the oracle
on the segment pnode->q to _vNewConfig (true = collision, reject). -/
structure PlannerParams where
  diffstatefn : config → config → config
  constraintfn : Option (config → config → Bool)
  checkCollision : config → config → Bool

/-- State of a SpatialTree (template class SpatialTree of spatialrep.h):
the node arena _nodes, the metric member _distmetricfn, the step length
_fStepLength and the DOF count _dof.  _fBestDist is modelled as the
second component returned by GetNN, and the scratch vector _vNewConfig
as a local of the Extend loop. -/
structure SpatialTree where
  nodes : List t_node
  distfn : config → config → dReal
  fStepLength : dReal
  dof : ℕ

/-- SpatialTree constructor: _fStepLength = 0.04 (1/25), _dof = 0, no
nodes.  The C++ leaves _distmetricfn empty; the model takes it as a
parameter. -/
def SpatialTree.mkTree (df : config → config → dReal) : SpatialTree :=
  ⟨[], df, 1 / 25, 0⟩

/-- SpatialTree::AddNode(parent, config): append and return the new node
count minus one. -/
def SpatialTree.AddNode (t : SpatialTree) (parent : ℤ) (cfg : config) :
    SpatialTree × ℕ :=
  ({ t with nodes := t.nodes ++ [⟨parent, cfg⟩] }, t.nodes.length)

/-- SpatialTree::GetConfig(inode): _nodes.at(inode)->q, with the checked
access modelled as an Option. -/
def SpatialTree.GetConfig (t : SpatialTree) (inode : ℕ) : Option config :=
  (t.nodes.get? inode).map (·.q)

/-- Total variant of GetConfig used where the planners call it with an
index that is valid at run time. -/
def SpatialTree.GetConfigD (t : SpatialTree) (inode : ℕ) : config :=
  (t.nodes.getD inode default).q

/-- Loop body of SpatialTree::GetNN, carrying ibest, fbest and the
running index: a node beats the accumulator when ibest < 0 or its
distance is strictly smaller. -/
def getNNAux (df : config → config → dReal) (q : config) :
    List t_node → ℤ → dReal → ℕ → ℤ × dReal
  | [], ibest, fbest, _ => (ibest, fbest)
  | nd :: rest, ibest, fbest, idx =>
    if ibest < 0 ∨ df q nd.q < fbest then
      getNNAux df q rest (idx : ℤ) (df q nd.q) (idx + 1)
    else
      getNNAux df q rest ibest fbest (idx + 1)

/-- SpatialTree::GetNN(q): -1 on an empty tree, otherwise the index of
the first minimum-distance node together with the recorded best
distance _fBestDist. -/
def SpatialTree.GetNN (t : SpatialTree) (q : config) : ℤ × dReal :=
  if t.nodes.length = 0 then (-1, 0)
  else getNNAux t.distfn q t.nodes (-1) 0 0

/-- The step scaling of Extend: fdist is replaced by the ratio
_fStepLength / fdist when the distance exceeds the step length,
otherwise it is kept as the raw distance. -/
def stepScale (step fdist0 : dReal) : dReal :=
  if step < fdist0 then step / fdist0 else fdist0

/-- Construction of _vNewConfig: assign the target, apply the
in-place _diffstatefn, then overwrite each coordinate below _dof with
pnode->q[i] + _vNewConfig[i] * fdist. -/
def newConfig (pp : PlannerParams) (dof : ℕ) (target pnodeq : config)
    (fdist : dReal) : config :=
  (List.range (pp.diffstatefn target pnodeq).length).map
    (fun i =>
      if i < dof then
        pnodeq.getD i 0 + (pp.diffstatefn target pnodeq).getD i 0 * fdist
      else (pp.diffstatefn target pnodeq).getD i 0)

/-- The while(1) loop of SpatialTree::Extend.  Arguments after the fuel:
the tree, lastindex (nonnegative inside the loop) and bHasAdded.  One
iteration: compute fdist to the frontier node; if it neither exceeds the
step length nor is above a tenth of it, report ET_Connected; otherwise
scale, build _vNewConfig from diffstatefn and the per-DOF update
pnode->q[i] + _vNewConfig[i] * fdist; bail out (ET_Sucess if a node was
added this call, else ET_Failed) when the configured constraint function
rejects, when the projected step is degenerate (at most 0.01 of the step
length), or when the collision oracle rejects; otherwise append the new
node with the frontier as parent and continue (reporting ET_Connected at
once when bOneStep).  Fuel 0 models running out of iterations and never
arises in the facts proved below, which are settled in the first
iteration. -/
def extendLoop (pp : PlannerParams) (target : config) (bOneStep : Bool) :
    ℕ → SpatialTree → ℕ → Bool → ExtendType × ℤ × SpatialTree
  | 0, t, lastindex, _ => (ExtendType.ET_Failed, (lastindex : ℤ), t)
  | fuel + 1, t, lastindex, bHasAdded =>
    let pnodeq := (t.nodes.getD lastindex default).q
    let fdist0 := t.distfn target pnodeq
    if ¬ t.fStepLength < fdist0 ∧ fdist0 ≤ 1 / 10 * t.fStepLength then
      (ExtendType.ET_Connected, (lastindex : ℤ), t)
    else
      let vNew := newConfig pp t.dof target pnodeq (stepScale t.fStepLength fdist0)
      let bail : ExtendType × ℤ × SpatialTree :=
        (if bHasAdded then ExtendType.ET_Sucess else ExtendType.ET_Failed,
         (lastindex : ℤ), t)
      let constraintOK :=
        match pp.constraintfn with
        | none => true
        | some cfn =>
          cfn pnodeq vNew && decide (1 / 100 * t.fStepLength < t.distfn pnodeq vNew)
      if constraintOK = false then bail
      else if pp.checkCollision pnodeq vNew then bail
      else
        let res := t.AddNode (lastindex : ℤ) vNew
        if bOneStep then (ExtendType.ET_Connected, (res.2 : ℤ), res.1)
        else extendLoop pp target bOneStep fuel res.1 res.2 true

/-- SpatialTree::Extend(pTargetConfig, lastindex, bOneStep): find the
nearest node; fail at once on an empty tree; otherwise run the stepping
loop.  The result is (return value, final lastindex, final tree). -/
def SpatialTree.Extend (t : SpatialTree) (pp : PlannerParams)
    (target : config) (bOneStep : Bool) (fuel : ℕ) :
    ExtendType × ℤ × SpatialTree :=
  let lastindex := (t.GetNN target).1
  if lastindex < 0 then (ExtendType.ET_Failed, lastindex, t)
  else extendLoop pp target bOneStep fuel t lastindex.toNat false

/-- Mutable state of SBLPlanner during PlanPath: the two trees, the
path-node list l_pathnodes (cleared by the constructor) and the
connection flag b_connected. -/
structure SBLState where
  t_start : SpatialTree
  t_goal : SpatialTree
  l_pathnodes : List s_node
  b_connected : Bool

/-- The swap(t_start, t_goal) at the end of a buildTrees round. -/
def swapTrees (st : SBLState) : SBLState :=
  { st with t_start := st.t_goal, t_goal := st.t_start }

/-- One round of SBLPlanner::buildTrees: on sampler failure only warn
(and still swap); otherwise extend t_start toward its own root config,
then toward the sample; a failed extension hits continue, which skips
the swap; otherwise extend t_goal toward its root config and then toward
the frontier t_start reached, set b_connected when that extension
reports ET_Connected, and swap. -/
def buildRound (pp : PlannerParams) (exFuel start_id goal_id : ℕ)
    (st : SBLState) (sample : Option config) : SBLState :=
  match sample with
  | none => swapTrees st
  | some rnd =>
    let e1 := st.t_start.Extend pp (st.t_start.GetConfigD start_id) false exFuel
    let e2 := e1.2.2.Extend pp rnd false exFuel
    if e2.1 = ExtendType.ET_Failed then { st with t_start := e2.2.2 }
    else
      let e3 := st.t_goal.Extend pp (st.t_goal.GetConfigD goal_id) false exFuel
      let e4 := e3.2.2.Extend pp (e2.2.2.GetConfigD e2.2.1.toNat) false exFuel
      swapTrees
        { st with t_start := e2.2.2, t_goal := e4.2.2,
                  b_connected :=
                    if e4.1 = ExtendType.ET_Connected then true
                    else st.b_connected }

/-- SBLPlanner::buildTrees: while(!b_connected) run rounds, drawing one
sample per round.  Fuel and the sample list bound the modelled
iteration count (the C++ loop runs until connection). -/
def buildTrees (pp : PlannerParams) (exFuel start_id goal_id : ℕ) :
    ℕ → List (Option config) → SBLState → SBLState
  | 0, _, st => st
  | _ + 1, [], st => st
  | fuel + 1, sample :: rest, st =>
    if st.b_connected then st
    else
      buildTrees pp exFuel start_id goal_id fuel rest
        (buildRound pp exFuel start_id goal_id st sample)

/-- SBLPlanner::PlanPath: add the start configuration to t_start with
parent 0 and the goal configuration to t_goal with parent 1000, run
buildTrees on the returned ids, and then emit one trajectory point per
element of l_pathnodes (each point being the first GetDOF coordinates of
the node's configuration); the function returns true.  No statement
between buildTrees and the emission loop writes l_pathnodes (the path
search over the connected trees is an unimplemented todo in the
source). -/
def SBLPlanPath (pp : PlannerParams) (df : config → config → dReal)
    (vinit vgoal : config) (samples : List (Option config))
    (fuel exFuel dofN : ℕ) : Bool × List (List dReal) :=
  let a := (SpatialTree.mkTree df).AddNode 0 vinit
  let b := (SpatialTree.mkTree df).AddNode 1000 vgoal
  let st0 : SBLState := ⟨a.1, b.1, [], false⟩
  let stF := buildTrees pp exFuel a.2 b.2 fuel samples st0
  let traj := stF.l_pathnodes.map
    (fun nd => (List.range dofN).map (fun i => nd.nconfig.getD i 0))
  (true, traj)

/-! Helper lemmas. -/

/-- Reading an index of a list after setting one. -/
theorem lgetD_set {α : Type} (l : List α) (i j : ℕ) (x d : α) :
    (l.set i x).getD j d = if i = j ∧ j < l.length then x else l.getD j d := by
  rw [List.getD_eq_getElem?_getD, List.getD_eq_getElem?_getD, List.getElem?_set]
  by_cases hij : i = j
  · subst hij
    by_cases hlen : i < l.length
    · simp [hlen]
    · rw [List.getElem?_eq_none (by omega)]
      simp [hlen]
  · simp [hij]

/-- Reading an index of a replicated list. -/
theorem lgetD_replicate {α : Type} (n j : ℕ) (a d : α) :
    (List.replicate n a).getD j d = if j < n then a else d := by
  rw [List.getD_eq_getElem?_getD, List.getElem?_replicate]
  by_cases h : j < n <;> simp [h]

/-- Reading the appended element of a one-element extension. -/
theorem lgetD_concat {α : Type} (l : List α) (x d : α) :
    (l ++ [x]).getD l.length d = x := by
  rw [List.getD_eq_getElem?_getD, List.getElem?_concat_length]
  rfl

/-! Claim C10: AddNode and GetConfig of SpatialTree. -/

/-- C10: for every SpatialTree, every parent value and every
configuration, AddNode always succeeds: it appends exactly one node, it
returns the new node count minus one, and GetConfig at the returned
index yields exactly the configuration that was inserted. -/
theorem AddNode_GetConfig_roundtrip (t : SpatialTree) (p : ℤ) (q : config) :
    (t.AddNode p q).1.nodes.length = t.nodes.length + 1 ∧
    (t.AddNode p q).2 = (t.AddNode p q).1.nodes.length - 1 ∧
    (t.AddNode p q).1.GetConfig (t.AddNode p q).2 = some q := by
  refine ⟨by simp [SpatialTree.AddNode], by simp [SpatialTree.AddNode], ?_⟩
  simp only [SpatialTree.AddNode, SpatialTree.GetConfig]
  rw [List.get?_concat_length]
  rfl

/-! Claim C2: vertex handles returned by addNode. -/

/-- C2 counterexample: under the (maxNodes, threshold) constructor that
the roadmap planner uses, the boost graph starts with maxNodes vertices,
so the first call to addNode returns maxNodes (3 here), not 0. -/
theorem addNode_handle_cex :
    ((SpatialGraph.mkParam 3 5).addNode [0]).2 = 3 ∧
    ((SpatialGraph.mkParam 3 5).addNode [0]).2 ≠ 0 := by
  decide

/-- Handles of nodes inserted by iterated addNode: an invariant linking
the boost vertex count to the stored node list. -/
theorem addNodes_vertices (confs : List config) (g : SpatialGraph) (a : ℕ)
    (hn : g.num_boost_verts = a + g.node_list.length)
    (hv : g.node_list.map s_node.vertex = List.range' a g.node_list.length) :
    (addNodes g confs).node_list.map s_node.vertex =
      List.range' a (g.node_list.length + confs.length) ∧
    (addNodes g confs).num_boost_verts = a + g.node_list.length + confs.length ∧
    (addNodes g confs).node_list.length = g.node_list.length + confs.length := by
  induction confs generalizing g with
  | nil => simpa [addNodes] using ⟨hv, hn.symm ▸ rfl⟩
  | cons c cs ih =>
    have step : addNodes g (c :: cs) = addNodes (g.addNode c).1 cs := by
      simp [addNodes]
    rw [step]
    have hn' : (g.addNode c).1.num_boost_verts =
        a + (g.addNode c).1.node_list.length := by
      simp [SpatialGraph.addNode, hn]; omega
    have hv' : (g.addNode c).1.node_list.map s_node.vertex =
        List.range' a (g.addNode c).1.node_list.length := by
      simp only [SpatialGraph.addNode, List.map_append, hv, List.length_append,
        List.map_cons, List.map_nil, List.length_map]
      rw [hn, show a + g.node_list.length = a + 1 * g.node_list.length by ring]
      rw [← @List.range'_concat 1 a g.node_list.length]
      simp
    obtain ⟨h1, h2, h3⟩ := ih (g.addNode c).1 hn' hv'
    have hlen : (g.addNode c).1.node_list.length = g.node_list.length + 1 := by
      simp [SpatialGraph.addNode]
    refine ⟨?_, ?_, ?_⟩
    · rw [h1]
      congr 1
      rw [hlen]
      simp only [List.length_cons]
      omega
    · rw [h2, hlen]
      simp only [List.length_cons]
      omega
    · rw [h3, hlen]
      simp only [List.length_cons]
      omega

/-- C2 amended: the k-th addNode call returns the graph's initial boost
vertex count plus k-1 (0 under the default constructor, maxNodes under
the (maxNodes, threshold) constructor, whose boost graph is
pre-populated with maxNodes vertices); the handles stored in node_list
are those consecutive integers in insertion order. -/
theorem addNode_handles (g0 : SpatialGraph)
    (h : g0 = SpatialGraph.mkDefault ∨
         ∃ m th, g0 = SpatialGraph.mkParam m th)
    (confs : List config) (c : config) :
    (addNodes g0 confs).node_list.map s_node.vertex =
      List.range' g0.num_boost_verts confs.length ∧
    ((addNodes g0 confs).addNode c).2 = g0.num_boost_verts + confs.length := by
  have hnil : g0.node_list = [] := by
    rcases h with h | ⟨m, th, h⟩ <;> subst h <;> rfl
  have base := addNodes_vertices confs g0 g0.num_boost_verts
    (by rw [hnil]; rfl) (by rw [hnil]; rfl)
  obtain ⟨h1, h2, _⟩ := base
  refine ⟨by simpa [hnil] using h1, ?_⟩
  simp only [SpatialGraph.addNode]
  rw [h2, hnil]
  rfl

/-- C2 witness: with maxNodes = 2, two stored vertices are 2 and 3 and
the third addNode call returns 4. -/
theorem addNode_handles_witness :
    (addNodes (SpatialGraph.mkParam 2 5) [[0], [1]]).node_list.map
        s_node.vertex = List.range' 2 2 ∧
    ((addNodes (SpatialGraph.mkParam 2 5) [[0], [1]]).addNode [2]).2 = 2 + 2 :=
  addNode_handles (SpatialGraph.mkParam 2 5) (Or.inr ⟨2, 5, rfl⟩) [[0], [1]] [2]

/-! Claim C1: behaviour of findPathDK. -/

/-- Two stored nodes with configurations 0 and 1 joined by an edge (the
default constructor, then two addNode calls, then addEdge). -/
def dkConn : SpatialGraph := ⟨100, 5, [⟨[0], 0⟩, ⟨[1], 1⟩], 2, [(0, 1, 1)]⟩

/-- The same two stored nodes with no edge between them. -/
def dkDisc : SpatialGraph := ⟨100, 5, [⟨[0], 0⟩, ⟨[1], 1⟩], 2, []⟩

/-- C1: the return value of findPathDK is inverted with respect to the
claim.  The two graphs are exactly what the construction API produces
(first two conjuncts).  On the connected graph, where an edge joins the
two queried nodes, findPathDK returns false and a path that misses the
start node; on the disconnected graph it returns true together with the
fabricated two-element sequence from, to. -/
theorem findPathDK_inverted :
    ((addNodes SpatialGraph.mkDefault [[0], [1]]).addEdge distL1 0 1).1 = dkConn ∧
    addNodes SpatialGraph.mkDefault [[0], [1]] = dkDisc ∧
    dkConn.findPathDK ⟨[0], 0⟩ ⟨[1], 1⟩ [] = (false, [⟨[1], 1⟩]) ∧
    dkDisc.findPathDK ⟨[0], 0⟩ ⟨[1], 1⟩ [] =
      (true, [⟨[0], 0⟩, ⟨[1], 1⟩]) := by
  refine ⟨?_, ?_, ?_, ?_⟩
  · norm_num [dkConn, addNodes, SpatialGraph.addNode, SpatialGraph.addEdge,
      SpatialGraph.edgeExists, SpatialGraph.adjList, SpatialGraph.getNode,
      distL1, SpatialGraph.mkDefault]
  · norm_num [dkDisc, addNodes, SpatialGraph.addNode, SpatialGraph.mkDefault]
  · have hp : dijkstraPred dkConn 0 = [0, 0] := by
      norm_num [dijkstraPred, dijkstraLoop, initSearch, pickMin, frontierList,
        bestCand, markVisited, relaxAll, relaxOne, SpatialGraph.adjW, dkConn,
        List.range_succ, List.replicate, List.set, List.getD, List.filterMap,
        List.foldl, List.foldr, List.range_zero]
    have hw : predWalk dkConn [0, 0] (dkConn.num_boost_verts + 1) 1 [] =
        (0, [⟨[1], 1⟩]) := by
      norm_num [predWalk, dkConn, SpatialGraph.getNode, List.foldl]
    simp only [SpatialGraph.findPathDK, hp, hw]
    norm_num [dkConn]
  · have hp : dijkstraPred dkDisc 0 = [0, 1] := by
      norm_num [dijkstraPred, dijkstraLoop, initSearch, pickMin, frontierList,
        bestCand, markVisited, relaxAll, relaxOne, SpatialGraph.adjW, dkDisc,
        List.range_succ, List.replicate, List.set, List.getD, List.filterMap,
        List.foldl, List.foldr, List.range_zero]
    have hw : predWalk dkDisc [0, 1] (dkDisc.num_boost_verts + 1) 1 [] =
        (1, [⟨[1], 1⟩]) := by
      norm_num [predWalk, dkDisc, SpatialGraph.getNode, List.foldl]
    simp only [SpatialGraph.findPathDK, hp, hw]
    norm_num [dkDisc]

/-! Claim C3: addEdge. -/

/-- Elements of the accumulator survive the adjacency fold. -/
theorem mem_adjFold (v x : ℕ) (es : List (ℕ × ℕ × dReal)) (acc : List ℕ)
    (hx : x ∈ acc) :
    x ∈ es.foldr
      (fun e acc =>
        if e.1 = v then e.2.1 :: acc
        else if e.2.1 = v then e.1 :: acc
        else acc) acc := by
  induction es with
  | nil => simpa using hx
  | cons e es ih =>
    simp only [List.foldr_cons]
    split
    · exact List.mem_cons_of_mem _ ih
    · split
      · exact List.mem_cons_of_mem _ ih
      · exact ih

/-- After appending the undirected edge (u, v), u is adjacent to v. -/
theorem edgeExists_append (g : SpatialGraph) (u v : ℕ) (w : dReal)
    (m : ℕ) (huv : u ≠ v) :
    SpatialGraph.edgeExists
      { g with num_boost_verts := m, edges := g.edges ++ [(u, v, w)] } u v
      = true := by
  have hmem : u ∈ SpatialGraph.adjList
      { g with num_boost_verts := m, edges := g.edges ++ [(u, v, w)] } v := by
    simp only [SpatialGraph.adjList, List.foldr_append, List.foldr_cons,
      List.foldr_nil]
    refine mem_adjFold v u g.edges _ ?_
    rw [if_neg huv]
    simp
  simp only [SpatialGraph.edgeExists, Bool.or_eq_true, beq_iff_eq]
  right
  exact List.elem_iff.mpr hmem

/-- C3: addEdge(u, v) succeeds, inserting the undirected edge weighted
by the metric distance of the stored configurations, exactly when u and
v differ, no edge between them exists yet, and the distance is at most
neigh_thresh; on failure the graph is unchanged; and repeating a
successful call fails. -/
theorem addEdge_spec (dEval : config → config → dReal)
    (g : SpatialGraph) (u v : ℕ) :
    ((g.addEdge dEval u v).2 = true ↔
      (u ≠ v ∧ (g.adjList v).contains u = false ∧
       dEval (g.getNode u).nconfig (g.getNode v).nconfig ≤ g.neigh_thresh)) ∧
    ((g.addEdge dEval u v).2 = true →
      (g.addEdge dEval u v).1.edges =
        g.edges ++ [(u, v, dEval (g.getNode u).nconfig (g.getNode v).nconfig)] ∧
      (g.addEdge dEval u v).1.node_list = g.node_list ∧
      (g.addEdge dEval u v).1.neigh_thresh = g.neigh_thresh ∧
      (g.addEdge dEval u v).1.max_nodes = g.max_nodes) ∧
    ((g.addEdge dEval u v).2 = false → (g.addEdge dEval u v).1 = g) ∧
    ((g.addEdge dEval u v).2 = true →
      ((g.addEdge dEval u v).1.addEdge dEval u v).2 = false) := by
  by_cases h1 : (g.edgeExists u v || u == v) = true
  · have he : g.addEdge dEval u v = (g, false) := by
      simp [SpatialGraph.addEdge, h1]
    rw [he]
    refine ⟨⟨fun hc => absurd hc (by simp), ?_⟩,
      fun hc => absurd hc (by simp), fun _ => rfl,
      fun hc => absurd hc (by simp)⟩
    rintro ⟨hne, hcon, _⟩
    exfalso
    rw [Bool.or_eq_true] at h1
    rcases h1 with h | h
    · have h' := h
      simp only [SpatialGraph.edgeExists] at h'
      rw [Bool.or_eq_true] at h'
      rcases h' with h' | h'
      · exact hne (by simpa using h')
      · rw [hcon] at h'
        exact absurd h' (by simp)
    · exact hne (by simpa using h)
  · have hne : u ≠ v := by
      intro h
      exact h1 (by simp [h])
    have hcon : (g.adjList v).contains u = false := by
      rcases hcontra : (g.adjList v).contains u with _ | _
      · rfl
      · refine absurd ?_ h1
        simp only [SpatialGraph.edgeExists]
        rw [hcontra]
        simp
    by_cases h2 : g.neigh_thresh <
        dEval (g.getNode u).nconfig (g.getNode v).nconfig
    · have he : g.addEdge dEval u v = (g, false) := by
        simp only [SpatialGraph.addEdge]
        rw [if_neg (by simpa using h1), if_pos h2]
      rw [he]
      refine ⟨⟨fun hc => absurd hc (by simp), ?_⟩,
        fun hc => absurd hc (by simp), fun _ => rfl,
        fun hc => absurd hc (by simp)⟩
      rintro ⟨_, _, hle⟩
      exact absurd hle (not_le.mpr h2)
    · have he : g.addEdge dEval u v =
          ({ g with num_boost_verts := max g.num_boost_verts (max u v + 1),
                    edges := g.edges ++
                      [(u, v, dEval (g.getNode u).nconfig (g.getNode v).nconfig)] },
           true) := by
        simp only [SpatialGraph.addEdge]
        rw [if_neg (by simpa using h1), if_neg h2]
      rw [he]
      refine ⟨⟨fun _ => ⟨hne, hcon, le_of_not_lt h2⟩, fun _ => rfl⟩,
        fun _ => ⟨rfl, rfl, rfl, rfl⟩,
        fun hc => absurd hc (by simp), fun _ => ?_⟩
      have hee := edgeExists_append g u v
        (dEval (g.getNode u).nconfig (g.getNode v).nconfig)
        (max g.num_boost_verts (max u v + 1)) hne
      simp only [SpatialGraph.addEdge]
      rw [if_pos (by rw [hee]; simp)]

/-- C3 witness: on the two-node graph, addEdge 0 1 succeeds and the
repeated call fails. -/
theorem addEdge_spec_witness :
    (dkDisc.addEdge distL1 0 1).2 = true ∧
    ((dkDisc.addEdge distL1 0 1).1.addEdge distL1 0 1).2 = false := by
  have h := addEdge_spec distL1 dkDisc 0 1
  have hs : (dkDisc.addEdge distL1 0 1).2 = true := by
    refine h.1.mpr ⟨by norm_num, ?_, ?_⟩
    · norm_num [dkDisc, SpatialGraph.adjList]
    · norm_num [dkDisc, SpatialGraph.getNode, distL1, List.foldl]
  exact ⟨hs, h.2.2.2 hs⟩

/-! Claim C5: findNN. -/

/-- Graph built as the roadmap planner does, with the parameterised
constructor (maxNodes 2) and three inserted nodes: the stored vertex
handles are 2, 3 and 4. -/
def nnG : SpatialGraph := ⟨2, 5, [⟨[0], 2⟩, ⟨[1], 3⟩, ⟨[2], 4⟩], 5, []⟩

/-- C5 counterexample: on a graph of the parameterised constructor, the
stored (valid) handle 4 fails the n > nodeCount test of findNN, which
returns 0 even though the stored node with handle 3 is within the
threshold of node 4's configuration, is not node 4 and is not connected
to it, so the claimed result set is nonempty. -/
theorem findNN_cex :
    addNodes (SpatialGraph.mkParam 2 5) [[0], [1], [2]] = nnG ∧
    nnG.findNN distL1 4 [] = (0, []) ∧
    (⟨[2], 4⟩ : s_node) ∈ nnG.node_list ∧
    (⟨[1], 3⟩ : s_node) ∈ nnG.node_list ∧
    nnG.edgeExists 4 3 = false ∧
    distL1 (nnG.getNode 4).nconfig [1] ≤ nnG.neigh_thresh ∧
    (4 : ℕ) ≠ 3 := by
  refine ⟨?_, ?_, ?_, ?_, ?_, ?_, by norm_num⟩
  · norm_num [nnG, addNodes, SpatialGraph.addNode, SpatialGraph.mkParam]
  · norm_num [nnG, SpatialGraph.findNN]
  · norm_num [nnG]
  · norm_num [nnG]
  · norm_num [nnG, SpatialGraph.edgeExists, SpatialGraph.adjList]
  · norm_num [nnG, SpatialGraph.getNode, distL1, List.foldl]

/-- C5 amended: findNN returns 0 with the output list untouched whenever
at most one node is stored or n exceeds the stored node count (the
code's handle-validity test, which under the parameterised constructor
also rejects valid handles, as the counterexample shows); otherwise it
returns exactly the stored nodes that are not adjacent to n (which also
excludes the node n itself) and lie within the neighbour threshold of
getNode(n)'s configuration, together with their count. -/
theorem findNN_amended (dEval : config → config → dReal) (g : SpatialGraph)
    (n : ℕ) (sn : List s_node) :
    (g.node_list.length ≤ 1 ∨ g.node_list.length < n →
      g.findNN dEval n sn = (0, sn)) ∧
    (2 ≤ g.node_list.length → n ≤ g.node_list.length →
      g.findNN dEval n sn =
        ((g.node_list.filter
            (fun it => !(g.edgeExists n it.vertex) &&
              decide (dEval (g.getNode n).nconfig it.nconfig ≤ g.neigh_thresh))).length,
         g.node_list.filter
            (fun it => !(g.edgeExists n it.vertex) &&
              decide (dEval (g.getNode n).nconfig it.nconfig ≤ g.neigh_thresh)))) ∧
    (2 ≤ g.node_list.length → n ≤ g.node_list.length →
      ∀ nd ∈ (g.findNN dEval n sn).2,
        nd.vertex ≠ n ∧ g.edgeExists n nd.vertex = false ∧
        nd ∈ g.node_list ∧
        dEval (g.getNode n).nconfig nd.nconfig ≤ g.neigh_thresh) := by
  have hmain : ∀ h1 : ¬ g.node_list.length ≤ 1, ∀ h2 : ¬ g.node_list.length < n,
      g.findNN dEval n sn =
        ((g.node_list.filter
            (fun it => !(g.edgeExists n it.vertex) &&
              decide (dEval (g.getNode n).nconfig it.nconfig ≤ g.neigh_thresh))).length,
         g.node_list.filter
            (fun it => !(g.edgeExists n it.vertex) &&
              decide (dEval (g.getNode n).nconfig it.nconfig ≤ g.neigh_thresh))) := by
    intro h1 h2
    unfold SpatialGraph.findNN
    rw [if_neg h1, if_neg h2]
  refine ⟨?_, ?_, ?_⟩
  · intro h
    by_cases h1 : g.node_list.length ≤ 1
    · unfold SpatialGraph.findNN
      rw [if_pos h1]
    · have h2 : g.node_list.length < n := by
        rcases h with h | h
        · omega
        · exact h
      unfold SpatialGraph.findNN
      rw [if_neg h1, if_pos h2]
  · intro h1 h2
    exact hmain (by omega) (by omega)
  · intro h1 h2 nd hnd
    rw [hmain (by omega) (by omega)] at hnd
    simp only [List.mem_filter, Bool.and_eq_true, Bool.not_eq_true',
      decide_eq_true_eq] at hnd
    obtain ⟨hmem, hex, hdist⟩ := hnd
    refine ⟨?_, hex, hmem, hdist⟩
    intro hvn
    rw [SpatialGraph.edgeExists] at hex
    rw [hvn] at hex
    simp at hex

/-- Three nodes from the default constructor, handles 0, 1, 2. -/
def wnG : SpatialGraph := ⟨100, 5, [⟨[0], 0⟩, ⟨[1], 1⟩, ⟨[10], 2⟩], 3, []⟩

/-- C5 witness: on a default-constructor graph, findNN on handle 1
returns the single node within threshold, excluding the node itself and
the far node. -/
theorem findNN_amended_witness :
    wnG.findNN distL1 1 [] = (1, [⟨[0], 0⟩]) := by
  have h := (findNN_amended distL1 wnG 1 []).2.1 (by norm_num [wnG])
    (by norm_num [wnG])
  rw [h]
  norm_num [wnG, SpatialGraph.edgeExists, SpatialGraph.adjList,
    SpatialGraph.getNode, distL1, List.foldl, List.filter]
  decide

/-! Claim C4: findPathAS. -/

/-- A vertex set closed under the undirected edges of the graph: both
endpoints of every edge are on the same side.  Separating from with to
by such a set is exactly the absence of a path between them. -/
def EdgeClosed (g : SpatialGraph) (S : List ℕ) : Prop :=
  ∀ e ∈ g.edges, (e.1 ∈ S ↔ e.2.1 ∈ S)

/-- A candidate chosen by bestCand comes from the candidate list. -/
theorem bestCand_mem :
    ∀ (cs : List (ℕ × dReal)) (acc : Option (ℕ × dReal)) (b : ℕ × dReal),
      bestCand acc cs = some b → b ∈ cs ∨ acc = some b := by
  intro cs
  induction cs with
  | nil => intro acc b hb; right; simpa [bestCand] using hb
  | cons c cs ih =>
    intro acc b hb
    match acc with
    | none =>
      rcases ih (some c) b hb with h | h
      · exact Or.inl (List.mem_cons_of_mem _ h)
      · exact Or.inl (by simp_all)
    | some a =>
      rcases ih _ b hb with h | h
      · exact Or.inl (List.mem_cons_of_mem _ h)
      · rcases Option.some_inj.mp h with rfl
        by_cases hlt : c.2 < a.2
        · rw [if_pos hlt]; exact Or.inl (List.mem_cons_self _ _)
        · rw [if_neg hlt]; exact Or.inr rfl

/-- The vertex extracted by pickMin has a tentative distance. -/
theorem pickMin_dist (h : ℕ → dReal) (st : SearchState) (u : ℕ)
    (hp : pickMin h st = some u) : st.dist.getD u none ≠ none := by
  unfold pickMin at hp
  rcases Option.map_eq_some'.mp hp with ⟨b, hb, hbu⟩
  rcases bestCand_mem _ _ _ hb with hmem | hmem
  · rcases List.mem_filterMap.mp hmem with ⟨v, _, hf⟩
    by_cases hvis : st.visited.getD v false = true
    · rw [if_pos hvis] at hf
      exact absurd hf (by simp)
    · rw [if_neg hvis] at hf
      rcases hd : st.dist.getD v none with _ | d
      · rw [hd] at hf
        exact absurd hf (by simp)
      · rw [hd] at hf
        have hbv : (v, d + h v) = b := by simpa using hf
        rw [← hbu, ← hbv]
        show st.dist.getD v none ≠ none
        rw [hd]
        simp
  · exact absurd hmem (by simp)

/-- Relaxing one edge whose far endpoint lies in S keeps every reached
vertex inside S. -/
theorem relaxOne_keep (S : List ℕ) (u : ℕ) (st : SearchState)
    (e : ℕ × dReal) (he : e.1 ∈ S)
    (hinv : ∀ v, st.dist.getD v none ≠ none → v ∈ S) :
    ∀ v, (relaxOne u st e).dist.getD v none ≠ none → v ∈ S := by
  intro v hv
  unfold relaxOne at hv
  rcases hdu : st.dist.getD u none with _ | du
  · rw [hdu] at hv
    exact hinv v hv
  · rw [hdu] at hv
    rcases hdw : st.dist.getD e.1 none with _ | dw
    · rw [hdw] at hv
      simp only at hv
      rw [lgetD_set] at hv
      by_cases hc : e.1 = v ∧ v < st.dist.length
      · exact hc.1 ▸ he
      · rw [if_neg hc] at hv
        exact hinv v hv
    · rw [hdw] at hv
      simp only at hv
      by_cases hlt : du + e.2 < dw
      · rw [if_pos hlt] at hv
        simp only at hv
        rw [lgetD_set] at hv
        by_cases hc : e.1 = v ∧ v < st.dist.length
        · exact hc.1 ▸ he
        · rw [if_neg hc] at hv
          exact hinv v hv
      · rw [if_neg hlt] at hv
        exact hinv v hv

/-- Folding relaxations over edges into S keeps every reached vertex
inside S. -/
theorem relaxFold_keep (S : List ℕ) (u : ℕ) :
    ∀ (l : List (ℕ × dReal)) (st : SearchState),
      (∀ p ∈ l, p.1 ∈ S) →
      (∀ v, st.dist.getD v none ≠ none → v ∈ S) →
      ∀ v, (l.foldl (relaxOne u) st).dist.getD v none ≠ none → v ∈ S := by
  intro l
  induction l with
  | nil => intro st _ hinv; simpa using hinv
  | cons p l ih =>
    intro st hl hinv
    simp only [List.foldl_cons]
    exact ih (relaxOne u st p) (fun q hq => hl q (List.mem_cons_of_mem _ hq))
      (relaxOne_keep S u st p (hl p (List.mem_cons_self _ _)) hinv)

/-- Every weighted neighbour returned by adjW comes from an incident
edge of the edge list. -/
theorem adjW_edge (g : SpatialGraph) (u : ℕ) :
    ∀ p ∈ g.adjW u,
      ∃ e ∈ g.edges, (e.1 = u ∧ e.2.1 = p.1) ∨ (e.2.1 = u ∧ e.1 = p.1) := by
  have haux : ∀ (es : List (ℕ × ℕ × dReal)) (acc : List (ℕ × dReal)) (p),
      p ∈ es.foldr
        (fun e acc =>
          if e.1 = u then (e.2.1, e.2.2) :: acc
          else if e.2.1 = u then (e.1, e.2.2) :: acc
          else acc) acc →
      p ∈ acc ∨ ∃ e ∈ es, (e.1 = u ∧ e.2.1 = p.1) ∨ (e.2.1 = u ∧ e.1 = p.1) := by
    intro es
    induction es with
    | nil => intro acc p hp; exact Or.inl (by simpa using hp)
    | cons e es ih =>
      intro acc p hp
      simp only [List.foldr_cons] at hp
      by_cases h1 : e.1 = u
      · rw [if_pos h1] at hp
        rcases List.mem_cons.mp hp with rfl | hp
        · exact Or.inr ⟨e, List.mem_cons_self _ _, Or.inl ⟨h1, rfl⟩⟩
        · rcases ih acc p hp with h | ⟨e', he', hd⟩
          · exact Or.inl h
          · exact Or.inr ⟨e', List.mem_cons_of_mem _ he', hd⟩
      · rw [if_neg h1] at hp
        by_cases h2 : e.2.1 = u
        · rw [if_pos h2] at hp
          rcases List.mem_cons.mp hp with rfl | hp
          · exact Or.inr ⟨e, List.mem_cons_self _ _, Or.inr ⟨h2, rfl⟩⟩
          · rcases ih acc p hp with h | ⟨e', he', hd⟩
            · exact Or.inl h
            · exact Or.inr ⟨e', List.mem_cons_of_mem _ he', hd⟩
        · rw [if_neg h2] at hp
          rcases ih acc p hp with h | ⟨e', he', hd⟩
          · exact Or.inl h
          · exact Or.inr ⟨e', List.mem_cons_of_mem _ he', hd⟩
  intro p hp
  rcases haux g.edges [] p hp with h | h
  · exact absurd h (by simp)
  · exact h

/-- Relaxing every edge out of a vertex of S keeps every reached vertex
inside S when S is closed under the edges. -/
theorem relaxAll_keep (g : SpatialGraph) (S : List ℕ) (u : ℕ)
    (st : SearchState) (hcl : EdgeClosed g S) (hu : u ∈ S)
    (hinv : ∀ v, st.dist.getD v none ≠ none → v ∈ S) :
    ∀ v, (relaxAll g u st).dist.getD v none ≠ none → v ∈ S := by
  refine relaxFold_keep S u (g.adjW u) st ?_ hinv
  intro p hp
  rcases adjW_edge g u p hp with ⟨e, he, ⟨h1, h2⟩ | ⟨h1, h2⟩⟩
  · exact h2 ▸ ((hcl e he).mp (h1 ▸ hu))
  · exact h2 ▸ ((hcl e he).mpr (h1 ▸ hu))

/-- The A* loop never reaches the goal when the source lies in an
edge-closed set avoiding the goal. -/
theorem astarLoop_unreached (g : SpatialGraph) (h : ℕ → dReal)
    (goal : ℕ) (S : List ℕ) (hcl : EdgeClosed g S) (hgoal : goal ∉ S) :
    ∀ (fuel : ℕ) (st : SearchState),
      (∀ v, st.dist.getD v none ≠ none → v ∈ S) →
      astarLoop g h goal fuel st = none := by
  intro fuel
  induction fuel with
  | zero => intro st _; rfl
  | succ fuel ih =>
    intro st hinv
    unfold astarLoop
    rcases hp : pickMin h st with _ | u
    · rfl
    · have hu : u ∈ S := hinv u (pickMin_dist h st u hp)
      have hne : ¬ u = goal := fun e => hgoal (e ▸ hu)
      simp only
      rw [if_neg hne]
      refine ih _ ?_
      exact relaxAll_keep g S u (markVisited u st) hcl hu hinv

/-- C4: findPathAS returns true whenever the exploration completes,
including when no path from from to to exists (witnessed by any
edge-closed vertex set containing from and avoiding to); in that
no-path case the output list is left unmodified. -/
theorem findPathAS_spec (dEval : config → config → dReal)
    (g : SpatialGraph) (f t : s_node) (s_path : List s_node) :
    (g.findPathAS dEval f t s_path).1 = true ∧
    (∀ S : List ℕ, f.vertex ∈ S → t.vertex ∉ S → EdgeClosed g S →
      g.findPathAS dEval f t s_path = (true, s_path)) := by
  constructor
  · unfold SpatialGraph.findPathAS
    rcases hm : astarLoop g (astarHeuristic dEval g t.vertex) t.vertex
        (g.num_boost_verts + 1) (initSearch g.num_boost_verts f.vertex) with
      _ | p <;> simp [hm]
  · intro S hf ht hcl
    have hinit : ∀ v,
        (initSearch g.num_boost_verts f.vertex).dist.getD v none ≠ none →
        v ∈ S := by
      intro v hv
      simp only [initSearch] at hv
      rw [lgetD_set] at hv
      by_cases hc : f.vertex = v ∧ v < (List.replicate g.num_boost_verts
          (none : Option dReal)).length
      · exact hc.1 ▸ hf
      · rw [if_neg hc, lgetD_replicate] at hv
        simp at hv
    have hnone := astarLoop_unreached g
      (astarHeuristic dEval g t.vertex) t.vertex S hcl ht
      (g.num_boost_verts + 1) (initSearch g.num_boost_verts f.vertex) hinit
    unfold SpatialGraph.findPathAS
    rw [hnone]

/-- C4 witness: on the edgeless two-node graph, the separating set
containing only vertex 0 shows findPathAS returning true with the path
list untouched. -/
theorem findPathAS_spec_witness :
    dkDisc.findPathAS distL1 ⟨[0], 0⟩ ⟨[1], 1⟩ [] = (true, []) := by
  refine (findPathAS_spec distL1 dkDisc ⟨[0], 0⟩ ⟨[1], 1⟩ []).2 [0]
    (by decide) (by decide) ?_
  intro e he
  simp [dkDisc] at he

/-! Claims C6 and C7: SpatialTree::Extend first-iteration behaviour. -/

/-- Invariant of the GetNN fold: once some node has been scanned the
best index is nonnegative and below the running node count. -/
theorem getNNAux_bounds (df : config → config → dReal) (q : config) :
    ∀ (l : List t_node) (ib : ℤ) (fb : dReal) (idx : ℕ),
      (0 ≤ ib → ib < (idx : ℤ)) → (ib < 0 → l ≠ []) →
      0 ≤ (getNNAux df q l ib fb idx).1 ∧
      (getNNAux df q l ib fb idx).1 < ((idx + l.length : ℕ) : ℤ) := by
  intro l
  induction l with
  | nil =>
    intro ib fb idx hprem hne
    have hge : 0 ≤ ib := by
      by_contra hc
      exact hne (by omega) rfl
    simp only [getNNAux, List.length_nil]
    have := hprem hge
    refine ⟨hge, by push_cast; omega⟩
  | cons nd l ih =>
    intro ib fb idx hprem hne
    simp only [getNNAux]
    by_cases hbr : ib < 0 ∨ df q nd.q < fb
    · rw [if_pos hbr]
      have h := ih (idx : ℤ) (df q nd.q) (idx + 1)
        (by intro _; push_cast; omega)
        (by intro hc; exact absurd hc (by omega))
      refine ⟨h.1, ?_⟩
      have h2 := h.2
      simp only [List.length_cons]
      push_cast at h2 ⊢
      omega
    · rw [if_neg hbr]
      have hge : 0 ≤ ib := by
        rcases not_or.mp hbr with ⟨h1, _⟩
        omega
      have h := ih ib fb (idx + 1)
        (by intro h0; have := hprem h0; push_cast at this ⊢; omega)
        (by intro hc; omega)
      refine ⟨h.1, ?_⟩
      have h2 := h.2
      simp only [List.length_cons]
      push_cast at h2 ⊢
      omega

/-- On a nonempty tree GetNN returns a nonnegative index below the node
count. -/
theorem GetNN_bounds (t : SpatialTree) (q : config) (hne : t.nodes ≠ []) :
    0 ≤ (t.GetNN q).1 ∧ (t.GetNN q).1 < (t.nodes.length : ℤ) ∧
    (t.GetNN q).1.toNat < t.nodes.length := by
  have hlen : t.nodes.length ≠ 0 := by
    intro hc
    exact hne (List.length_eq_zero.mp hc)
  unfold SpatialTree.GetNN
  rw [if_neg hlen]
  have h := getNNAux_bounds t.distfn q t.nodes (-1) 0 0
    (by omega) (fun _ => hne)
  have h2 := h.2
  push_cast at h2
  exact ⟨h.1, by omega, by omega⟩

/-- C6: on a nonempty tree, when the target lies strictly closer than a
tenth of the step length to the nearest stored node, Extend reports
ET_Connected immediately, returns that node's index, and leaves the
tree unchanged (no node added). -/
theorem extend_connected (t : SpatialTree) (pp : PlannerParams)
    (target : config) (fuel : ℕ) (b1 : Bool)
    (hne : t.nodes ≠ []) (hstep : 0 < t.fStepLength) (hfuel : 1 ≤ fuel)
    (hclose : t.distfn target
        (t.nodes.getD ((t.GetNN target).1).toNat default).q <
      1 / 10 * t.fStepLength) :
    t.Extend pp target b1 fuel =
      (ExtendType.ET_Connected, (t.GetNN target).1, t) := by
  obtain ⟨hge, hlt, hltn⟩ := GetNN_bounds t target hne
  unfold SpatialTree.Extend
  rw [if_neg (not_lt.mpr hge)]
  obtain ⟨k, rfl⟩ : ∃ k, fuel = k + 1 := ⟨fuel - 1, by omega⟩
  simp only [extendLoop]
  rw [if_pos ⟨by intro hgt; linarith, le_of_lt hclose⟩,
    Int.toNat_of_nonneg hge]

/-- C7: on a nonempty tree, with the target strictly farther than a
tenth of the step length from the nearest stored node, an
always-rejecting collision oracle makes Extend return ET_Failed with
the tree unchanged, whatever the constraint function does. -/
theorem extend_rejected (t : SpatialTree) (pp : PlannerParams)
    (target : config) (fuel : ℕ) (b1 : Bool)
    (hne : t.nodes ≠ []) (hfuel : 1 ≤ fuel)
    (hfar : 1 / 10 * t.fStepLength <
      t.distfn target (t.nodes.getD ((t.GetNN target).1).toNat default).q)
    (hcol : ∀ a b, pp.checkCollision a b = true) :
    (t.Extend pp target b1 fuel).1 = ExtendType.ET_Failed ∧
    (t.Extend pp target b1 fuel).2.2 = t := by
  obtain ⟨hge, hlt, hltn⟩ := GetNN_bounds t target hne
  have heq : t.Extend pp target b1 fuel =
      (ExtendType.ET_Failed, (((t.GetNN target).1).toNat : ℤ), t) := by
    unfold SpatialTree.Extend
    rw [if_neg (not_lt.mpr hge)]
    obtain ⟨k, rfl⟩ : ∃ k, fuel = k + 1 := ⟨fuel - 1, by omega⟩
    simp only [extendLoop]
    rw [if_neg (fun hc => absurd hc.2 (not_le.mpr hfar))]
    rcases hcf : pp.constraintfn with _ | cfn
    · simp only
      rw [if_neg (by simp), if_pos (hcol _ _)]
      rfl
    · simp only
      split
      · rfl
      · rw [if_pos (hcol _ _)]
        rfl
  exact ⟨by rw [heq], by rw [heq]⟩

/-- A one-node tree rooted at the origin with the constructor's step
length 1/25 and one DOF. -/
def twSmall : SpatialTree := ⟨[⟨0, [0]⟩], distL1, 1 / 25, 1⟩

/-- Parameters with plain subtraction differencing, no constraint
function, and a collision oracle that never rejects. -/
def ppFree : PlannerParams :=
  ⟨fun a b => List.zipWith (fun x y => x - y) a b, none, fun _ _ => false⟩

/-- The same parameters with a collision oracle that always rejects. -/
def ppBlock : PlannerParams :=
  ⟨fun a b => List.zipWith (fun x y => x - y) a b, none, fun _ _ => true⟩

/-- C6 witness: extending toward a target at distance 1/1000 < 1/250
from the only node reports ET_Connected with no change to the tree. -/
theorem extend_connected_witness :
    twSmall.Extend ppFree [1 / 1000] false 1 =
      (ExtendType.ET_Connected, 0, twSmall) := by
  have hg : (twSmall.GetNN [1 / 1000]).1 = 0 := by
    norm_num [twSmall, SpatialTree.GetNN, getNNAux, distL1, List.foldl,
      List.zipWith]
  rw [extend_connected twSmall ppFree [1 / 1000] 1 false (by decide)
    (by norm_num [twSmall]) (by norm_num)
    (by
      rw [hg]
      norm_num [twSmall, distL1, List.foldl, List.zipWith, List.getD_cons_zero]
      rw [abs_of_nonneg (by norm_num)]
      norm_num),
    hg]

/-- C7 witness: extending toward a target at distance 1 > 1/250 with an
always-rejecting oracle fails and keeps the tree unchanged. -/
theorem extend_rejected_witness :
    (twSmall.Extend ppBlock [1] false 1).1 = ExtendType.ET_Failed ∧
    (twSmall.Extend ppBlock [1] false 1).2.2 = twSmall := by
  have hg : (twSmall.GetNN [1]).1 = 0 := by
    norm_num [twSmall, SpatialTree.GetNN, getNNAux, distL1, List.foldl,
      List.zipWith]
  exact extend_rejected twSmall ppBlock [1] 1 false (by decide) (by norm_num)
    (by
      rw [hg]
      norm_num [twSmall, distL1, List.foldl, List.zipWith, List.getD_cons_zero])
    (fun _ _ => rfl)

/-! Claim C8: tree parent invariant. -/

/-- Well-formedness of the parent links: every node other than node 0
points to a strictly earlier node. -/
def TreeWF (t : SpatialTree) : Prop :=
  ∀ i : ℕ, 1 ≤ i → i < t.nodes.length →
    (t.nodes.getD i default).parent < (i : ℤ)

/-- A description of one Extend call, used to quantify over call
sequences. -/
structure ExtendCall where
  pp : PlannerParams
  target : config
  oneStep : Bool
  fuel : ℕ

/-- Application of a sequence of Extend calls to a tree, keeping the
mutated tree of each call. -/
def applyExtends (t : SpatialTree) (calls : List ExtendCall) : SpatialTree :=
  calls.foldl
    (fun t c => (t.Extend c.pp c.target c.oneStep c.fuel).2.2) t

/-- AddNode with an in-range parent preserves well-formedness. -/
theorem AddNode_WF (t : SpatialTree) (k : ℕ) (hk : k < t.nodes.length)
    (q : config) (h : TreeWF t) : TreeWF (t.AddNode (k : ℤ) q).1 := by
  intro i h1 h2
  simp only [SpatialTree.AddNode, List.length_append, List.length_cons,
    List.length_nil] at h2 ⊢
  by_cases hi : i < t.nodes.length
  · rw [List.getD_append _ _ _ _ hi]
    exact h i h1 hi
  · have hieq : i = t.nodes.length := by omega
    subst hieq
    rw [lgetD_concat]
    show (k : ℤ) < (t.nodes.length : ℤ)
    exact_mod_cast hk

/-- The Extend loop only appends nodes and preserves well-formedness as
long as the frontier index is in range. -/
theorem extendLoop_preserve (pp : PlannerParams) (target : config)
    (b1 : Bool) :
    ∀ (fuel : ℕ) (t : SpatialTree) (li : ℕ) (b : Bool),
      li < t.nodes.length → TreeWF t →
      ∃ l, (extendLoop pp target b1 fuel t li b).2.2.nodes = t.nodes ++ l ∧
        TreeWF (extendLoop pp target b1 fuel t li b).2.2 := by
  intro fuel
  induction fuel with
  | zero =>
    intro t li b _ hwf
    exact ⟨[], by simp [extendLoop], hwf⟩
  | succ fuel ih =>
    intro t li b hli hwf
    have hAdd : ∀ q : config, TreeWF (t.AddNode (li : ℤ) q).1 :=
      fun q => AddNode_WF t li hli q hwf
    have hAddlen : ∀ q : config,
        (t.AddNode (li : ℤ) q).2 < (t.AddNode (li : ℤ) q).1.nodes.length := by
      intro q
      simp [SpatialTree.AddNode]
    simp only [extendLoop]
    generalize hvn : newConfig pp t.dof target (t.nodes.getD li default).q
      (stepScale t.fStepLength
        (t.distfn target (t.nodes.getD li default).q)) = vN
    split
    · exact ⟨[], by simp, hwf⟩
    · rcases hcf : pp.constraintfn with _ | cfn
      · simp only
        rw [if_neg (by simp)]
        split
        · exact ⟨[], by simp, hwf⟩
        · split
          · exact ⟨[⟨(li : ℤ), vN⟩], by simp [SpatialTree.AddNode], hAdd vN⟩
          · obtain ⟨l, h1, h2⟩ := ih (t.AddNode (li : ℤ) vN).1
              (t.AddNode (li : ℤ) vN).2 true (hAddlen vN) (hAdd vN)
            refine ⟨⟨(li : ℤ), vN⟩ :: l, ?_, h2⟩
            rw [h1]
            simp [SpatialTree.AddNode]
      · simp only
        split
        · exact ⟨[], by simp, hwf⟩
        · split
          · exact ⟨[], by simp, hwf⟩
          · split
            · exact ⟨[⟨(li : ℤ), vN⟩], by simp [SpatialTree.AddNode], hAdd vN⟩
            · obtain ⟨l, h1, h2⟩ := ih (t.AddNode (li : ℤ) vN).1
                (t.AddNode (li : ℤ) vN).2 true (hAddlen vN) (hAdd vN)
              refine ⟨⟨(li : ℤ), vN⟩ :: l, ?_, h2⟩
              rw [h1]
              simp [SpatialTree.AddNode]

/-- Extend only appends nodes and preserves well-formedness. -/
theorem Extend_preserve (t : SpatialTree) (pp : PlannerParams)
    (target : config) (b1 : Bool) (fuel : ℕ) (hwf : TreeWF t) :
    ∃ l, (t.Extend pp target b1 fuel).2.2.nodes = t.nodes ++ l ∧
      TreeWF (t.Extend pp target b1 fuel).2.2 := by
  unfold SpatialTree.Extend
  by_cases hneg : (t.GetNN target).1 < 0
  · rw [if_pos hneg]
    exact ⟨[], by simp, hwf⟩
  · rw [if_neg hneg]
    have hne : t.nodes ≠ [] := by
      intro hnil
      apply hneg
      unfold SpatialTree.GetNN
      rw [if_pos (by rw [hnil]; rfl)]
      norm_num
    exact extendLoop_preserve pp target b1 fuel t _ false
      (GetNN_bounds t target hne).2.2 hwf

/-- A sequence of Extend calls only appends nodes and preserves
well-formedness. -/
theorem applyExtends_preserve (calls : List ExtendCall) :
    ∀ t : SpatialTree, TreeWF t →
      ∃ l, (applyExtends t calls).nodes = t.nodes ++ l ∧
        TreeWF (applyExtends t calls) := by
  induction calls with
  | nil =>
    intro t h
    exact ⟨[], by simp [applyExtends], h⟩
  | cons c cs ih =>
    intro t h
    simp only [applyExtends, List.foldl_cons]
    obtain ⟨l1, h1, h2⟩ := Extend_preserve t c.pp c.target c.oneStep c.fuel h
    obtain ⟨l2, h3, h4⟩ := ih _ h2
    refine ⟨l1 ++ l2, ?_, h4⟩
    rw [show (applyExtends (t.Extend c.pp c.target c.oneStep c.fuel).2.2 cs) =
      cs.foldl (fun t c => (t.Extend c.pp c.target c.oneStep c.fuel).2.2)
        (t.Extend c.pp c.target c.oneStep c.fuel).2.2 from rfl] at h3
    rw [h3, h1, List.append_assoc]

/-- C8 counterexample: the goal tree that SBLPlanner::PlanPath builds
begins with AddNode(1000, goalConfig) on the fresh tree, so its root
node stores parent 1000, not the -1 sentinel. -/
theorem tree_root_cex :
    ((((SpatialTree.mkTree distL1).AddNode 1000 [0]).1.nodes.getD 0
        default).parent = 1000) ∧ ((1000 : ℤ) ≠ -1) := by
  exact ⟨rfl, by decide⟩

/-- C8 amended: AddNode stores whatever parent index it is given, so
the planner-built roots carry parent 0 (start tree) and 1000 (goal
tree) rather than a -1 sentinel; after the root insertion, every node
appended by any sequence of Extend calls has a parent index strictly
smaller than its own index, so all non-root parent links point to
already-inserted nodes and the structure is cycle-free. -/
theorem tree_parent_invariant (df : config → config → dReal) (p0 : ℤ)
    (c0 : config) (calls : List ExtendCall) :
    ((applyExtends ((SpatialTree.mkTree df).AddNode p0 c0).1 calls).nodes.getD
        0 default).parent = p0 ∧
    TreeWF (applyExtends ((SpatialTree.mkTree df).AddNode p0 c0).1 calls) := by
  have hwf0 : TreeWF ((SpatialTree.mkTree df).AddNode p0 c0).1 := by
    intro i h1 h2
    simp [SpatialTree.mkTree, SpatialTree.AddNode] at h2
    omega
  obtain ⟨l, h1, h2⟩ := applyExtends_preserve calls _ hwf0
  refine ⟨?_, h2⟩
  rw [h1]
  rw [show (((SpatialTree.mkTree df).AddNode p0 c0).1.nodes) = [⟨p0, c0⟩]
    from rfl]
  rw [List.getD_append _ _ _ _ (by simp)]
  rfl

/-! Claim C9: SBLPlanner::PlanPath trajectory emission. -/

/-- One buildTrees round never writes l_pathnodes. -/
theorem buildRound_pathnodes (pp : PlannerParams) (exFuel s g : ℕ)
    (st : SBLState) (sample : Option config) :
    (buildRound pp exFuel s g st sample).l_pathnodes = st.l_pathnodes := by
  rcases sample with _ | rnd
  · rfl
  · simp only [buildRound]
    split
    · rfl
    · rfl

/-- buildTrees never writes l_pathnodes. -/
theorem buildTrees_pathnodes (pp : PlannerParams) (exFuel s g : ℕ) :
    ∀ (fuel : ℕ) (samples : List (Option config)) (st : SBLState),
      (buildTrees pp exFuel s g fuel samples st).l_pathnodes =
        st.l_pathnodes := by
  intro fuel
  induction fuel with
  | zero => intro samples st; rfl
  | succ fuel ih =>
    intro samples st
    rcases samples with _ | ⟨sample, rest⟩
    · rfl
    · simp only [buildTrees]
      split
      · rfl
      · rw [ih rest _, buildRound_pathnodes]

/-- C9: PlanPath appends one trajectory point per element of
l_pathnodes, but nothing ever populates l_pathnodes (the path search
over the connected trees is an unimplemented todo), so the emitted
trajectory is always empty and the function returns true, even on runs
where the trees do connect (second conjunct: a concrete run whose
b_connected flag is set). -/
theorem SBLPlanPath_no_output :
    (∀ (pp : PlannerParams) (df : config → config → dReal)
       (vinit vgoal : config) (samples : List (Option config))
       (fuel exFuel dofN : ℕ),
      SBLPlanPath pp df vinit vgoal samples fuel exFuel dofN = (true, [])) ∧
    (buildTrees ppFree 1 0 0 1 [some [0]]
        ⟨((SpatialTree.mkTree distL1).AddNode 0 [0]).1,
         ((SpatialTree.mkTree distL1).AddNode 1000 [0]).1, [],
         false⟩).b_connected = true := by
  constructor
  · intro pp df vinit vgoal samples fuel exFuel dofN
    simp only [SBLPlanPath]
    rw [buildTrees_pathnodes]
    simp
  · norm_num [buildTrees, buildRound, swapTrees, SpatialTree.Extend,
      extendLoop, SpatialTree.GetNN, getNNAux, newConfig, stepScale,
      SpatialTree.GetConfigD, SpatialTree.AddNode, SpatialTree.mkTree,
      ppFree, distL1, List.getD_cons_zero, List.getD_cons_succ,
      List.getD_nil, List.zipWith, List.foldl]
    rfl

end openprm
